import Mathlib

/-!
Verification model of the `os_lab_5` extent-based filesystem.

The Rust sources under `src/kernel/fs/` are shallowly embedded as executable
Lean definitions:

* `alloc_map.rs` — `AllocMap` is a `List AllocFlag`; `find_free`, `allocate`,
  `allocate_span`, `free` are transcribed directly.  The `assert!` calls of
  `allocate_span` and `free` are modelled by an `Option` layer: `none` stands
  for an assertion failure (a Rust panic).
* `node.rs` — `Extent`, `Node`, `get_physical_block`, `block_count`,
  `map_block` (the Rust field `end` is named `stop` here, `end` being a Lean
  keyword).  Machine integers (`usize`) are modelled as `Nat`; subtraction is
  truncated and every place where the source could underflow is noted.
  The `assert!(phys_block != 0)` of `map_block` is noted where relevant by a
  `phys_block ≠ 0` hypothesis; every call evaluated below uses nonzero blocks.
* `transaction.rs` — a `State` record holds the node table (as a total map
  from node index to `Node`, abstracting the bit-exact zerocopy round trip of
  `read_node`/`write_node` through the block cache), the in-memory block
  allocation map and node allocation map of the filesystem, the backing
  storage (a total map from block index to block bytes: out-of-bounds storage
  errors are not exercised by any claim), and the transaction's staged block
  changes.  `read_file_at`, `write_file_at`, `truncate_file`, `create_node`,
  `create_file`, `read_directory`, `write_directory` and `create_directory`
  are transcribed statement by statement; loops become fuel-indexed
  structural recursions (the fuel is always sufficient at every call site).
* `directory.rs` — `DirEntry` and `Dir` with the byte serialization used by
  `read_directory`/`write_directory` (`repr(C)` layout: one filetype byte,
  seven padding bytes, a little-endian eight-byte index, a 64-byte name).
  A failing decode (`try_ref_from_bytes` + `expect`, i.e. an abort) is the
  `none` case of an `Option`.

`BLOCK_SIZE` and the disk geometry constants come from modules that are not
part of the filesystem sources (`hardware/storage`, `superblock.rs`); they
are modelled from the specification (block size 512, a data region starting
after the metadata blocks).
-/

/-- Modelled from the spec: `BLOCK_SIZE` lives in `hardware/storage/block.rs`
(not part of the fs sources); the spec fixes the reference value 512. -/
def BLOCK_SIZE : Nat := 512

/-- How many extents a `Node` can have (`EXTENTS_PER_NODE` in `node.rs`). -/
def EXTENTS_PER_NODE : Nat := 15

/-- Allocation state of an object (`AllocFlag` in `alloc_map.rs`). -/
inductive AllocFlag where
  | Free : AllocFlag
  | Used : AllocFlag
deriving DecidableEq, Repr, Inhabited

/-- An allocation map is its list of one-byte flags (`AllocMap.flags`). -/
abbrev AllocMap := List AllocFlag

/-- `AllocMap`-related errors (`alloc_map::Error`). -/
inductive AllocError where
  | IndexOutOfBounds : AllocError
  | ObjectOccupied : AllocError
  | OutOfSpace : AllocError
deriving DecidableEq, Repr

/-- Overwrites the flags of the half-open span `[a, b)` with `v`; positions
outside the span (and positions beyond the list) are unchanged.  This models
`self.flags[a..b].fill(v)`. -/
def fillRange (v : AllocFlag) : AllocMap → Nat → Nat → AllocMap
  | [], _, _ => []
  | f :: rest, a, b =>
    (if a = 0 ∧ 0 < b then v else f) :: fillRange v rest (a - 1) (b - 1)

/-- The slice `l[a..b]` of a list (half-open). -/
def listSlice (l : List Nat) (a b : Nat) : List Nat :=
  (l.drop a).take (b - a)

namespace AllocMap

/-- The loop of `AllocMap::find_free`: iterate the flags with their index `i`,
resetting the candidate `start` to `i + 1` on every `Used` flag and returning
as soon as `count` consecutive `Free` flags have been seen. -/
def findFreeGo (count : Nat) : AllocMap → Nat → Nat → Option (Nat × Nat)
  | [], _, _ => none
  | f :: rest, i, start =>
    if f = AllocFlag.Used then
      findFreeGo count rest (i + 1) (i + 1)
    else if i + 1 - start = count then
      some (start, i + 1)
    else
      findFreeGo count rest (i + 1) start

/-- `AllocMap::find_free`: first-fit search for `count` consecutive free
flags; `count = 0` finds nothing. -/
def find_free (m : AllocMap) (count : Nat) : Option (Nat × Nat) :=
  if count = 0 then none else findFreeGo count m 0 0

/-- `AllocMap::allocate`: first-fit allocation.  The second component is the
map after the call (unchanged on failure, since the source returns before
mutating `self.flags`). -/
def allocate (m : AllocMap) (count : Nat) :
    Except AllocError (Nat × Nat) × AllocMap :=
  match find_free m count with
  | none => (Except.error AllocError.OutOfSpace, m)
  | some span => (Except.ok span, fillRange AllocFlag.Used m span.1 span.2)

/-- `AllocMap::allocate_span`.  `none` models the `assert!(span.0 < span.1)`
panic; otherwise the result pairs the outcome with the map after the call. -/
def allocate_span (m : AllocMap) (span : Nat × Nat) :
    Option (Except AllocError Unit × AllocMap) :=
  if span.2 ≤ span.1 then none
  else if m.length < span.2 then some (Except.error AllocError.IndexOutOfBounds, m)
  else if ((m.drop span.1).take (span.2 - span.1)).any (fun f => f = AllocFlag.Used) then
    some (Except.error AllocError.ObjectOccupied, m)
  else
    some (Except.ok (), fillRange AllocFlag.Used m span.1 span.2)

/-- `AllocMap::free`.  `none` models the `assert!(span.0 < span.1)` panic;
`self.flags.get_mut(a..b)` is `None` exactly when `b` exceeds the length
(given `a < b`), which the source maps to `IndexOutOfBounds`. -/
def free (m : AllocMap) (span : Nat × Nat) :
    Option (Except AllocError Unit × AllocMap) :=
  if span.2 ≤ span.1 then none
  else if m.length < span.2 then some (Except.error AllocError.IndexOutOfBounds, m)
  else some (Except.ok (), fillRange AllocFlag.Free m span.1 span.2)

end AllocMap

/-- File types (`FileType` in `node.rs`). -/
inductive FileType where
  | File : FileType
  | Dir : FileType
deriving DecidableEq, Repr, Inhabited

/-- A contiguous span of physical blocks (`Extent` in `node.rs`).  The Rust
field `end` is called `stop`. -/
structure Extent where
  start : Nat
  stop : Nat
deriving DecidableEq, Repr

instance : Inhabited Extent := ⟨⟨0, 0⟩⟩

namespace Extent

/-- `Extent::is_null`: the extent points to no physical blocks. -/
def is_null (e : Extent) : Bool := e.start == 0 && e.stop == 0

/-- `Extent::is_hole`: the extent represents a sparse region. -/
def is_hole (e : Extent) : Bool := e.start == 0 && 0 < e.stop

/-- `Extent::len`.  In Rust this is `end - start` on `usize`, which panics on
underflow in a debug build; here the subtraction is truncated. -/
def len (e : Extent) : Nat := e.stop - e.start

/-- `Extent::span`. -/
def span (e : Extent) : Nat × Nat := (e.start, e.stop)

end Extent

/-- A filesystem object (`Node` in `node.rs`). -/
structure Node where
  size : Nat
  link_count : Nat
  filetype : FileType
  extents : List Extent
deriving DecidableEq, Repr

/-- `Node::new`: a node of the given filetype, all other fields defaulted
(`size = 0`, `link_count = 0`, all extents null). -/
def Node.new (filetype : FileType) : Node :=
  { size := 0, link_count := 0, filetype := filetype
    extents := List.replicate EXTENTS_PER_NODE ⟨0, 0⟩ }

namespace Node

/-- The extent walk of `Node::get_physical_block`: iterate the extents up to
the first null one, decrementing the running offset. -/
def gpbGo : List Extent → Nat → Option Nat
  | [], _ => none
  | e :: rest, offset =>
    if e.is_null then none
    else
      let extent_len := e.len
      if offset < extent_len then
        if e.is_hole then none else some (e.start + offset)
      else gpbGo rest (offset - extent_len)

/-- `Node::get_physical_block`: resolve a logical block index to a physical
block index (`none` for a hole or for a block beyond the extents). -/
def get_physical_block (n : Node) (logic_block : Nat) : Option Nat :=
  gpbGo n.extents logic_block

/-- `Node::get_logical_block_from_offset`. -/
def get_logical_block_from_offset (byte_offset : Nat) : Nat :=
  byte_offset / BLOCK_SIZE

/-- `Node::get_physical_block_from_offset`. -/
def get_physical_block_from_offset (n : Node) (byte_offset : Nat) : Option Nat :=
  n.get_physical_block (get_logical_block_from_offset byte_offset)

/-- `Node::block_count`: the sum of `end - start` over the non-null extents
(note: the source filters only on `is_null`, not on `is_hole`). -/
def block_count (n : Node) : Nat :=
  ((n.extents.filter (fun e => !e.is_null)).map (fun e => e.stop - e.start)).sum

end Node

/-- `Node`-related errors (`node::Error`). -/
inductive NodeError where
  | OutOfExtents : NodeError
  | AlreadyMapped : NodeError
deriving DecidableEq, Repr

/-- Index of the last non-null extent (`rposition` in `map_block`); the
source unwraps the `Option`, which cannot fail at its call site because the
current extent is non-null, so the default `0` is never observed. -/
def lastNonNullAux : List Extent → Nat → Option Nat
  | [], _ => none
  | e :: rest, i =>
    match lastNonNullAux rest (i + 1) with
    | some j => some j
    | none => if e.is_null then none else some i

/-- Index of the last non-null extent, defaulting to `0`. -/
def lastNonNullIdx (l : List Extent) : Nat :=
  (lastNonNullAux l 0).getD 0

/-- The slice of a list of extents (used for `copy_within`). -/
def extSlice (l : List Extent) (a b : Nat) : List Extent :=
  (l.drop a).take (b - a)

/-- `copy_within(s..=t, d)` on an extent array: copies positions `[s, t]` of
the original list onto positions starting at `d` (memmove semantics: sources
are read from the unmodified list).  Empty when `t < s`. -/
def copyWithin (l : List Extent) (s t d : Nat) : List Extent :=
  if t < s then l
  else l.take d ++ extSlice l s (t + 1) ++ l.drop (d + (t + 1 - s))

/-- Overwrite the positions `[k, k + vs.length)` of `l` with `vs`
(`copy_from_slice` on a subslice). -/
def writeExts (l : List Extent) (k : Nat) (vs : List Extent) : List Extent :=
  l.take k ++ vs ++ l.drop (k + vs.length)

/-- The loop of `Node::map_block` over the extent indices `curr`, carrying
the remaining logical offset.  The fuel starts at the number of extents and
bounds the iteration count; running out of fuel coincides with running past
the last index, which the source reports as `OutOfExtents`. -/
def mapBlockGo (exts : List Extent) (phys_block : Nat) :
    Nat → Nat → Nat → Except NodeError (List Extent)
  | 0, _, _ => Except.error NodeError.OutOfExtents
  | fuel + 1, curr, offset =>
    if exts.length ≤ curr then Except.error NodeError.OutOfExtents
    else
      let e := exts.getD curr default
      if e.is_null then
        -- All allocated extents were passed or there was none.
        let exts1 :=
          if 0 < curr then
            let p := exts.getD (curr - 1) default
            if ¬ p.is_hole && (offset == 0 && p.stop == phys_block) then
              -- Merge with the previous extent (note: the source then still
              -- falls through to the `offset == 0` store below).
              exts.set (curr - 1) ⟨p.start, p.stop + 1⟩
            else exts
          else exts
        if offset = 0 then
          Except.ok (exts1.set curr ⟨phys_block, phys_block + 1⟩)
        else if exts.length ≤ curr + 1 then Except.error NodeError.OutOfExtents
        else
          -- Make the current extent a hole and map the next one.
          Except.ok (((exts1.set curr ⟨(exts1.getD curr default).start, offset⟩).set
            (curr + 1) ⟨phys_block, phys_block + 1⟩))
      else
        let blocks_in_curr := e.len
        if offset < blocks_in_curr then
          if ¬ e.is_hole then Except.error NodeError.AlreadyMapped
          else
            -- Split the hole into up to three extents, dropping empty holes.
            let exts3 := ([⟨0, offset⟩, ⟨phys_block, phys_block + 1⟩,
              ⟨0, blocks_in_curr - offset - 1⟩] : List Extent).filter
                (fun x => ¬ x.is_null)
            let extra := exts3.length - 1
            let last := lastNonNullIdx exts
            if exts.length - 1 < last + extra then Except.error NodeError.OutOfExtents
            else
              Except.ok (writeExts (copyWithin exts (curr + 1) last (curr + 1 + extra))
                curr exts3)
        else mapBlockGo exts phys_block fuel (curr + 1) (offset - blocks_in_curr)

/-- `Node::map_block`: map the logical block to the physical block.  The
source's `assert!(phys_block != 0)` is kept as a side condition: every use
below passes a nonzero physical block. -/
def Node.map_block (n : Node) (logic_block phys_block : Nat) :
    Except NodeError Node :=
  match mapBlockGo n.extents phys_block n.extents.length 0 logic_block with
  | Except.error e => Except.error e
  | Except.ok exts => Except.ok { n with extents := exts }

/-- A block's content: its list of bytes (length `BLOCK_SIZE` for every
well-formed block; `Block` in `hardware/storage/block.rs`). -/
abbrev Block := List Nat

/-- `Block::default()`: a zero-filled block. -/
def zeroBlock : Block := List.replicate BLOCK_SIZE 0

/-- Directory-related errors (`directory::Error`). -/
inductive DirError where
  | EntryNotFound : DirError
  | NameTooLong : DirError
  | CorruptedName : DirError
deriving DecidableEq, Repr

/-- Transaction-level errors (`transaction::Error`). -/
inductive TxError where
  | BlockIndexOutOfBounds : TxError
  | NodeIndexOutOfBounds : TxError
  | LogicalIndexOutOfBounds : TxError
  | Alloc : AllocError → TxError
  | Dir : DirError → TxError
  | Node : NodeError → TxError
  | FileNotFound : TxError
  | FileTypeNotLinkable : TxError
  | FileTypeNotTruncateable : TxError
deriving DecidableEq, Repr

/-- The combined state a `Transaction` operates on: the filesystem's two
in-memory allocation maps, the node table (total map from node index to
`Node`, standing for the bit-exact node records of the node-table blocks),
the backing storage and the staged block changes of the transaction. -/
structure State where
  nodes : Nat → Node
  block_map : AllocMap
  node_map : AllocMap
  storage : Nat → Block
  changes : Nat → Option Block

/-- `Transaction::read_block`: the staged block if present, falling back to
the storage (storage reads are modelled total). -/
def read_block (st : State) (block_index : Nat) : Block :=
  match st.changes block_index with
  | some b => b
  | none => st.storage block_index

/-- `Transaction::write_block`: stage a block write. -/
def write_block (st : State) (block_index : Nat) (b : Block) : State :=
  { st with changes := fun j => if j = block_index then some b else st.changes j }

/-- `Transaction::read_node` (the node-table block round trip is abstracted
to a lookup). -/
def read_node (st : State) (node_index : Nat) : Node :=
  st.nodes node_index

/-- `Transaction::write_node` (likewise abstracted to a map update). -/
def write_node (st : State) (node_index : Nat) (node : Node) : State :=
  { st with nodes := fun j => if j = node_index then node else st.nodes j }

/-- `Transaction::create_node`: allocate one node index first-fit from the
node map and store a fresh node of the given filetype there. -/
def create_node (st : State) (filetype : FileType) :
    Except TxError (Node × Nat × State) :=
  let node := Node.new filetype
  match AllocMap.allocate st.node_map 1 with
  | (Except.error e, _) => Except.error (TxError.Alloc e)
  | (Except.ok span, nm') =>
    let node_index := span.1
    Except.ok (node, node_index, write_node { st with node_map := nm' } node_index node)

/-- One chunk's worth of bytes: copied from the resolved physical block when
the logical block is mapped, zero-filled for a hole or a block beyond the
extents. -/
def readChunk (st : State) (node : Node) (curr_pos chunk_size : Nat) : List Nat :=
  let offset_in_block := curr_pos % BLOCK_SIZE
  match node.get_physical_block_from_offset curr_pos with
  | some block_index => ((read_block st block_index).drop offset_in_block).take chunk_size
  | none => List.replicate chunk_size 0

/-- The chunk loop of `Transaction::read_file_at`.  `bytes_read` grows by at
least one per iteration, so a fuel of `bytes_to_read` always suffices; the
fuel-exhaustion branch returns the bytes read so far and is never reached
from `read_file_at`. -/
def readLoop (st : State) (node : Node) (offset : Nat) :
    Nat → Nat → Nat → List Nat → List Nat × Nat
  | 0, _, bytes_read, buf => (buf, bytes_read)
  | fuel + 1, bytes_to_read, bytes_read, buf =>
    if bytes_read = bytes_to_read then (buf, bytes_read)
    else
      let curr_pos := offset + bytes_read
      let offset_in_block := curr_pos % BLOCK_SIZE
      let chunk_size := min (BLOCK_SIZE - offset_in_block) (bytes_to_read - bytes_read)
      let chunk := readChunk st node curr_pos chunk_size
      let buf' := buf.take bytes_read ++ chunk ++ buf.drop (bytes_read + chunk_size)
      readLoop st node offset fuel bytes_to_read (bytes_read + chunk_size) buf'

/-- `Transaction::read_file_at`: fill `buf` from the file starting at
`offset`, returning the final buffer and the number of bytes read. -/
def read_file_at (st : State) (node_index offset : Nat) (buf : List Nat) :
    List Nat × Nat :=
  let node := read_node st node_index
  if node.size ≤ offset then (buf, 0)
  else
    let bytes_available := node.size - offset
    let bytes_to_read := min bytes_available buf.length
    readLoop st node offset bytes_to_read bytes_to_read 0 buf

/-- The chunk loop of `Transaction::write_file_at`, carrying the state, the
local node copy and the running byte count.  A fuel of `data.length`
suffices since every iteration writes at least one byte. -/
def writeLoop (data : List Nat) (offset : Nat) :
    Nat → State → Node → Nat → Except TxError (State × Node × Nat)
  | 0, st, node, bytes_written => Except.ok (st, node, bytes_written)
  | fuel + 1, st, node, bytes_written =>
    if bytes_written = data.length then Except.ok (st, node, bytes_written)
    else
      let curr_pos := offset + bytes_written
      let offset_in_block := curr_pos % BLOCK_SIZE
      let logic_block := Node.get_logical_block_from_offset curr_pos
      let resolved : Except TxError (State × Node × Nat × Bool) :=
        match node.get_physical_block logic_block with
        | some index => Except.ok (st, node, index, false)
        | none =>
          match AllocMap.allocate st.block_map 1 with
          | (Except.error e, _) => Except.error (TxError.Alloc e)
          | (Except.ok span, bm') =>
            let phys_block := span.1
            match node.map_block logic_block phys_block with
            | Except.error e => Except.error (TxError.Node e)
            | Except.ok node' =>
              Except.ok ({ st with block_map := bm' }, node', phys_block, true)
      match resolved with
      | Except.error e => Except.error e
      | Except.ok (st', node', phys_block, has_alloc) =>
        let chunk_size := min (BLOCK_SIZE - offset_in_block) (data.length - bytes_written)
        let block := if has_alloc then zeroBlock else read_block st' phys_block
        let block' := block.take offset_in_block ++
          ((data.drop bytes_written).take chunk_size) ++
          block.drop (offset_in_block + chunk_size)
        writeLoop data offset fuel (write_block st' phys_block block') node'
          (bytes_written + chunk_size)

/-- `Transaction::write_file_at`: write `data` starting at `offset`.
Returns `(st, 0)` unchanged when `offset > size`; after the loop the node is
written back only when the end position exceeds the old size. -/
def write_file_at (st : State) (node_index offset : Nat) (data : List Nat) :
    Except TxError (State × Nat) :=
  let node := read_node st node_index
  if node.size < offset then Except.ok (st, 0)
  else
    match writeLoop data offset data.length st node 0 with
    | Except.error e => Except.error e
    | Except.ok (st', node', bytes_written) =>
      let end_pos := offset + bytes_written
      if node'.size < end_pos then
        Except.ok (write_node st' node_index { node' with size := end_pos }, bytes_written)
      else Except.ok (st', bytes_written)

/-- `a.div_ceil b` on `usize`. -/
def divCeil (a b : Nat) : Nat := (a + b - 1) / b

/-- The extent walk of `Transaction::truncate_file`, threading the block map
and the running `blocks_passed`; stops at the first null extent.  The outer
`Option` propagates the `assert!` panic inside `AllocMap::free`. -/
def truncGo (blocks_needed : Nat) :
    List Extent → Nat → AllocMap → Option (Except TxError (List Extent × AllocMap))
  | [], _, bm => some (Except.ok ([], bm))
  | e :: rest, blocks_passed, bm =>
    if e.is_null then some (Except.ok (e :: rest, bm))
    else
      let extent_len := e.len
      if blocks_needed ≤ blocks_passed then
        -- Extent is entirely beyond the size (note: the source frees the
        -- span of hole extents as well).
        match AllocMap.free bm e.span with
        | none => none
        | some (Except.error a, _) => some (Except.error (TxError.Alloc a))
        | some (Except.ok _, bm') =>
          match truncGo blocks_needed rest (blocks_passed + extent_len) bm' with
          | none => none
          | some (Except.error err) => some (Except.error err)
          | some (Except.ok (es, bm'')) => some (Except.ok (⟨0, 0⟩ :: es, bm''))
      else if blocks_needed ≤ blocks_passed + extent_len then
        -- Extent is partially needed; `Extent::shrink` sets `stop` to the
        -- kept length itself.
        let blocks_keep := blocks_needed - blocks_passed
        let new_end := e.start + blocks_keep
        match AllocMap.free bm (new_end, e.stop) with
        | none => none
        | some (Except.error a, _) => some (Except.error (TxError.Alloc a))
        | some (Except.ok _, bm') =>
          match truncGo blocks_needed rest (blocks_passed + extent_len) bm' with
          | none => none
          | some (Except.error err) => some (Except.error err)
          | some (Except.ok (es, bm'')) =>
            some (Except.ok (⟨e.start, blocks_keep⟩ :: es, bm''))
      else
        match truncGo blocks_needed rest (blocks_passed + extent_len) bm with
        | none => none
        | some (Except.error err) => some (Except.error err)
        | some (Except.ok (es, bm')) => some (Except.ok (e :: es, bm'))

/-- `Transaction::truncate_file`.  The outer `Option` propagates the panic of
`AllocMap::free` on an empty span. -/
def truncate_file (st : State) (node_index size : Nat) :
    Option (Except TxError State) :=
  let node := read_node st node_index
  if node.filetype ≠ FileType.File then
    some (Except.error TxError.FileTypeNotTruncateable)
  else if node.size ≤ size then
    some (Except.ok (write_node st node_index { node with size := size }))
  else
    let blocks_needed := divCeil size BLOCK_SIZE
    match truncGo blocks_needed node.extents 0 st.block_map with
    | none => none
    | some (Except.error e) => some (Except.error e)
    | some (Except.ok (exts', bm')) =>
      some (Except.ok (write_node { st with block_map := bm' } node_index
        { node with size := size, extents := exts' }))

/-- `MAX_NAME_LEN` in `directory.rs`. -/
def MAX_NAME_LEN : Nat := 64

/-- A directory entry name: its 64 zero-padded bytes (`DirEntryName`). -/
abbrev DirEntryName := List Nat

/-- `DirEntryName::try_from(&str)`: reject names longer than 64 bytes, pad
shorter ones with zero bytes.  Names are handled as their byte lists. -/
def tryFromName (value : List Nat) : Except DirError DirEntryName :=
  if MAX_NAME_LEN < value.length then Except.error DirError.NameTooLong
  else Except.ok (value ++ List.replicate (MAX_NAME_LEN - value.length) 0)

/-- A directory entry (`DirEntry` in `directory.rs`); the `_pad` bytes exist
only in the serialized form. -/
structure DirEntry where
  filetype : FileType
  node_index : Nat
  name : DirEntryName
deriving DecidableEq, Repr

namespace DirEntry

/-- `DirEntry::new`. -/
def new (node_index : Nat) (filetype : FileType) (name : DirEntryName) : DirEntry :=
  { filetype := filetype, node_index := node_index, name := name }

/-- The byte list of `"."`. -/
def dotName : DirEntryName := 46 :: List.replicate 63 0

/-- The byte list of `".."`. -/
def dotDotName : DirEntryName := 46 :: 46 :: List.replicate 62 0

/-- `DirEntry::itself`: the `.` entry. -/
def itself (index : Nat) : DirEntry := new index FileType.Dir dotName

/-- `DirEntry::parent`: the `..` entry. -/
def parent (index : Nat) : DirEntry := new index FileType.Dir dotDotName

/-- `DirEntry::is_null`: a tombstone entry. -/
def is_null (e : DirEntry) : Bool := e.node_index == 0

end DirEntry

/-- A directory's entry list (`Dir` in `directory.rs`). -/
abbrev Dir := List DirEntry

namespace Dir

/-- `Dir::add_entry`: reuse the first tombstone, else append. -/
def add_entry : Dir → DirEntry → Dir
  | [], entry => [entry]
  | e :: rest, entry =>
    if e.is_null then entry :: rest else e :: add_entry rest entry

/-- `Dir::new`: a directory containing only `.` and `..`. -/
def new (index parent_index : Nat) : Dir :=
  add_entry (add_entry [] (DirEntry.itself index)) (DirEntry.parent parent_index)

end Dir

/-- The filetype discriminant byte of the `repr(u8)` Rust enum. -/
def ftByte : FileType → Nat
  | FileType.File => 0
  | FileType.Dir => 1

/-- The inverse of `ftByte`; `none` on an invalid discriminant (which makes
`try_ref_from_bytes` fail and the source abort). -/
def decodeFiletype : Nat → Option FileType
  | 0 => some FileType.File
  | 1 => some FileType.Dir
  | _ => none

/-- The eight little-endian bytes of a `usize` field. -/
def encodeUsize (n : Nat) : List Nat :=
  [n % 256, n / 256 % 256, n / 256 ^ 2 % 256, n / 256 ^ 3 % 256,
   n / 256 ^ 4 % 256, n / 256 ^ 5 % 256, n / 256 ^ 6 % 256, n / 256 ^ 7 % 256]

/-- Reads a `usize` back from eight little-endian bytes. -/
def decodeUsize (l : List Nat) : Nat :=
  l.getD 0 0 + 256 * l.getD 1 0 + 256 ^ 2 * l.getD 2 0 + 256 ^ 3 * l.getD 3 0 +
  256 ^ 4 * l.getD 4 0 + 256 ^ 5 * l.getD 5 0 + 256 ^ 6 * l.getD 6 0 +
  256 ^ 7 * l.getD 7 0

/-- The 80 bytes of a `DirEntry` in `repr(C)` order: filetype byte, seven
zero pad bytes, the little-endian node index, the 64-byte name. -/
def encodeEntry (e : DirEntry) : List Nat :=
  ftByte e.filetype :: List.replicate 7 0 ++ encodeUsize e.node_index ++ e.name

/-- `dir.as_slice().as_bytes()`: the concatenated entry records. -/
def encodeDir (d : Dir) : List Nat :=
  (d.map encodeEntry).flatten

/-- `<[DirEntry]>::try_ref_from_bytes` on a byte buffer, entry by entry;
`none` when the length is not a multiple of 80 or a filetype byte is
invalid (the source then aborts).  Fuel-indexed on the byte count. -/
def decodeDirEntries : Nat → List Nat → Option Dir
  | _, [] => some []
  | 0, _ :: _ => none
  | fuel + 1, bytes =>
    if bytes.length < 80 then none
    else
      match decodeFiletype (bytes.getD 0 0) with
      | none => none
      | some ft =>
        let node_index := decodeUsize (listSlice bytes 8 16)
        let name := listSlice bytes 16 80
        match decodeDirEntries fuel (bytes.drop 80) with
        | none => none
        | some rest => some (DirEntry.new node_index ft name :: rest)

/-- `Transaction::read_directory`: read the node's whole content and decode
it as a `DirEntry` array; `none` models the abort on a corrupt buffer. -/
def read_directory (st : State) (node_index : Nat) : Option Dir :=
  let node := read_node st node_index
  let buf := List.replicate node.size 0
  let read := read_file_at st node_index 0 buf
  decodeDirEntries read.1.length read.1

/-- `Transaction::write_directory`: serialize the entries and write them as
the node's whole content. -/
def write_directory (st : State) (node_index : Nat) (d : Dir) :
    Except TxError State :=
  match write_file_at st node_index 0 (encodeDir d) with
  | Except.error e => Except.error e
  | Except.ok (st', _) => Except.ok st'

/-- `Transaction::create_file`.  Note the source allocates the node with
`FileType::File` regardless of the `filetype` argument, which is used only
for the directory entry.  The outer `Option` propagates the abort of
`read_directory`. -/
def create_file (st : State) (parent_index : Nat) (name : List Nat)
    (filetype : FileType) : Option (Except TxError (State × Nat)) :=
  match tryFromName name with
  | Except.error e => some (Except.error (TxError.Dir e))
  | Except.ok name64 =>
    match create_node st FileType.File with
    | Except.error e => some (Except.error e)
    | Except.ok (node, node_index, st1) =>
      let node := { node with link_count := node.link_count + 1 }
      let entry := DirEntry.new node_index filetype name64
      match read_directory st1 parent_index with
      | none => none
      | some parentDir =>
        let parentDir := Dir.add_entry parentDir entry
        match write_directory st1 parent_index parentDir with
        | Except.error e => some (Except.error e)
        | Except.ok st2 => some (Except.ok (write_node st2 node_index node, node_index))

/-- `Transaction::create_directory`: `create_file` with filetype `Dir`, then
write the fresh directory body containing `.` and `..`. -/
def create_directory (st : State) (parent_index : Nat) (name : List Nat) :
    Option (Except TxError (State × Nat)) :=
  match create_file st parent_index name FileType.Dir with
  | none => none
  | some (Except.error e) => some (Except.error e)
  | some (Except.ok (st1, node_index)) =>
    let dir := Dir.new node_index parent_index
    match write_directory st1 node_index dir with
    | Except.error e => some (Except.error e)
    | Except.ok st2 => some (Except.ok (st2, node_index))

/-!
Concrete states used to evaluate the transaction operations.  The geometry
is modelled from the spec (`superblock.rs` is not among the fs sources): a
small disk of 16 blocks whose metadata region is `[0, 5)`, with the root
directory's single data block at index 5, and a node table of 8 nodes.
Node 1 is the root directory (entries `.` and `..`, 160 bytes); node 2 is a
freshly created, still empty regular file (as left by `create_file`:
`size = 0`, `link_count = 1`, no extents).
-/

/-- The root directory node: 160 bytes stored in block 5. -/
def rootNode : Node :=
  { size := 160, link_count := 1, filetype := FileType.Dir
    extents := ⟨5, 6⟩ :: List.replicate 14 ⟨0, 0⟩ }

/-- A freshly created empty regular file node. -/
def fileNode : Node :=
  { size := 0, link_count := 1, filetype := FileType.File
    extents := List.replicate 15 ⟨0, 0⟩ }

/-- The serialized root directory (`.` and `..`, both index 1), padded to a
full block. -/
def rootDirBlock : Block :=
  encodeDir [DirEntry.itself 1, DirEntry.parent 1] ++ List.replicate 352 0

/-- The base state: metadata blocks and the root data block marked used,
node indices 0 (null node), 1 (root) and 2 (the fresh file) allocated. -/
def st0 : State :=
  { nodes := fun i => if i = 1 then rootNode else if i = 2 then fileNode
      else Node.new FileType.File
    block_map := List.replicate 6 AllocFlag.Used ++ List.replicate 10 AllocFlag.Free
    node_map := List.replicate 3 AllocFlag.Used ++ List.replicate 5 AllocFlag.Free
    storage := fun i => if i = 5 then rootDirBlock else zeroBlock
    changes := fun _ => none }

/-- Three-block payload for the round-trip run: 512 ones, 512 twos, one 3. -/
def c1_data : List Nat := List.replicate 512 1 ++ List.replicate 512 2 ++ [3]

/-- The write of `c1_data` to the fresh file at offset 0. -/
def c1_write : Except TxError (State × Nat) := write_file_at st0 2 0 c1_data

/-- The state after the C1 write (the write succeeds, see below). -/
def c1_st : State :=
  match c1_write with
  | Except.ok (s, _) => s
  | Except.error _ => st0

/-- The byte count returned by the C1 write. -/
def c1_count : Nat :=
  match c1_write with
  | Except.ok (_, k) => k
  | Except.error _ => 0

/-- Reading the file back into a fresh zeroed buffer of the same length. -/
def c1_read : List Nat × Nat := read_file_at c1_st 2 0 (List.replicate 1025 0)

set_option maxRecDepth 100000

/-- C1.  The write-then-read round trip fails on data spanning three blocks:
on the fresh file of `st0`, `write_file_at` succeeds with all 1025 bytes
written, yet reading them back yields byte 3 at position 512 where the data
holds byte 2.  (The merge branch of `Node::map_block` falls through and also
fills the null slot with a duplicate one-block extent, so the third chunk
resolves to the second chunk's physical block and overwrites it.)  The claim
that the read returns exactly the written data is therefore false on the
code. -/
theorem claim_C1_roundtrip_failure :
    c1_count = 1025 ∧ c1_read.2 = 1025 ∧
    c1_data.getD 512 0 = 2 ∧ c1_read.1.getD 512 0 = 3 :=
  ⟨rfl, rfl, rfl, rfl⟩

/-- 1024 bytes of `'x'` (byte 120), as in the spec's truncate scenario. -/
def c2_data : List Nat := List.replicate 1024 120

/-- Writing 1024 bytes to the fresh file of `st0`. -/
def c2_write : Except TxError (State × Nat) := write_file_at st0 2 0 c2_data

/-- The state after the C2 write. -/
def c2_st : State :=
  match c2_write with
  | Except.ok (s, _) => s
  | Except.error _ => st0

/-- Truncating the file to 400 bytes. -/
def c2_tr : Option (Except TxError State) := truncate_file c2_st 2 400

/-- The file node after the C2 truncate. -/
def c2_node : Node :=
  match c2_tr with
  | some (Except.ok s) => read_node s 2
  | _ => Node.new FileType.File

/-- C2.  After writing 1024 bytes and truncating to 400, the straddling
extent is left as `(6, 1)` — `Extent::shrink` stores the kept length into
`stop` instead of `start + length` — so `stop < start` and the extent is not
a well-formed mapped extent; `block_count` would compute `1 - 6` on `usize`
(an underflow) rather than 1.  The claim's well-formedness and
`block_count = 1` are therefore false on the code (the size update to 400
does happen). -/
theorem claim_C2_truncate_shrink_corrupts :
    (match c2_write with | Except.ok (_, k) => k | Except.error _ => 0) = 1024 ∧
    (match c2_tr with | some (Except.ok _) => true | _ => false) = true ∧
    c2_node.size = 400 ∧
    c2_node.extents.getD 0 default = ⟨6, 1⟩ ∧
    (c2_node.extents.getD 0 default).stop < (c2_node.extents.getD 0 default).start :=
  ⟨rfl, rfl, rfl, rfl, by decide⟩

/-- A node holding one mapped extent `(6, 7)` covering logical block 0. -/
def c3_node : Node :=
  { size := 1024, link_count := 1, filetype := FileType.File
    extents := ⟨6, 7⟩ :: List.replicate 14 ⟨0, 0⟩ }

/-- Mapping logical block 1 to the physically adjacent block 7. -/
def c3_res : Except NodeError Node := Node.map_block c3_node 1 7

/-- C3.  When the walk reaches the first null slot with offset 0 and the
previous extent is adjacent and not a hole, `map_block` extends the previous
extent — but then still falls through and writes a fresh one-block extent
into the null slot.  On the concrete node the result is
`[(6, 8), (7, 8), …]`: slot 1 does not stay null, refuting the claim. -/
theorem claim_C3_merge_also_fills_null_slot :
    c3_res = Except.ok { c3_node with
      extents := ⟨6, 8⟩ :: ⟨7, 8⟩ :: List.replicate 13 ⟨0, 0⟩ } ∧
    ((⟨7, 8⟩ : Extent).is_null = false) :=
  ⟨rfl, rfl⟩

/-- A file node whose extents are a one-block hole followed by the mapped
extent `(6, 7)` (as produced by growing via truncate and then writing at
offset 512). -/
def c4_node : Node :=
  { size := 1024, link_count := 1, filetype := FileType.File
    extents := ⟨0, 1⟩ :: ⟨6, 7⟩ :: List.replicate 13 ⟨0, 0⟩ }

/-- `st0` with node 2 replaced by `c4_node` and block 6 marked used. -/
def st4 : State :=
  { st0 with
    nodes := fun i => if i = 2 then c4_node else st0.nodes i
    block_map := List.replicate 7 AllocFlag.Used ++ List.replicate 9 AllocFlag.Free }

/-- Truncating the sparse file to 0. -/
def c4_tr : Option (Except TxError State) := truncate_file st4 2 0

/-- The block map after the C4 truncate. -/
def c4_bm : AllocMap :=
  match c4_tr with
  | some (Except.ok s) => s.block_map
  | _ => []

/-- C4.  Truncating across a hole does NOT leave the block map alone:
`truncate_file` calls `AllocMap::free(extent.span())` for every non-null
extent beyond the threshold, and a hole's span is `(0, len)`, so flag 0 — a
metadata block — is flipped from Used to Free.  The claim is false on the
code. -/
theorem claim_C4_truncate_frees_hole_span :
    st4.block_map.getD 0 AllocFlag.Free = AllocFlag.Used ∧
    (match c4_tr with | some (Except.ok _) => true | _ => false) = true ∧
    c4_bm.getD 0 AllocFlag.Used = AllocFlag.Free :=
  ⟨rfl, rfl, rfl⟩

/-- The single-byte name `"d"`. -/
def c9_name : List Nat := [100]

/-- Creating the directory `d` under the root. -/
def c9_run : Option (Except TxError (State × Nat)) := create_directory st0 1 c9_name

/-- The state after `create_directory`. -/
def c9_st : State :=
  match c9_run with
  | some (Except.ok (s, _)) => s
  | _ => st0

/-- The node index returned by `create_directory`. -/
def c9_idx : Nat :=
  match c9_run with
  | some (Except.ok (_, i)) => i
  | _ => 0

/-- C9.  `create_file` passes `FileType::File` to `create_node`, ignoring
its `filetype` argument, so the node made by `create_directory` has filetype
`File`; `truncate_file` on it consequently succeeds instead of failing with
`FileTypeNotTruncateable`.  The claim is false on the code. -/
theorem claim_C9_created_directory_is_truncateable :
    (match c9_run with | some (Except.ok _) => true | _ => false) = true ∧
    c9_idx = 3 ∧
    (read_node c9_st 3).filetype = FileType.File ∧
    (match truncate_file c9_st 3 0 with
      | some (Except.ok _) => true | _ => false) = true :=
  ⟨rfl, rfl, rfl, rfl⟩

/-- C6.  A write past EOF is a pure no-op: with `offset > size` the source
returns `Ok(0)` before staging any block, allocating from the block map or
touching the node record, so the whole state is returned unchanged. -/
theorem claim_C6_write_past_eof_noop (st : State) (node_index offset : Nat)
    (data : List Nat) (h : (read_node st node_index).size < offset) :
    write_file_at st node_index offset data = Except.ok (st, 0) := by
  simp only [write_file_at]
  rw [if_pos h]

/-- Witness for C6 at a concrete input: writing one byte at offset 1 of the
empty file of `st0`. -/
theorem claim_C6_witness :
    (read_node st0 2).size < 1 ∧
    write_file_at st0 2 1 [7] = Except.ok (st0, 0) :=
  ⟨by decide, claim_C6_write_past_eof_noop st0 2 1 [7] (by decide)⟩

/-- The sum of `stop - start` over the mapped (non-null, non-hole) extents
only — the quantity the claim says `block_count` returns. -/
def mappedBlockSum (n : Node) : Nat :=
  ((n.extents.filter (fun e => !e.is_null && !e.is_hole)).map
    (fun e => e.stop - e.start)).sum

/-- The sum of the lengths of the hole extents. -/
def holeBlockSum (n : Node) : Nat :=
  ((n.extents.filter (fun e => e.is_hole)).map (fun e => e.stop - e.start)).sum

/-- Well-formedness of an extent array: every null extent follows all
non-null ones. -/
def extentsWF : List Extent → Bool
  | [] => true
  | e :: rest => if e.is_null then rest.all (fun x => x.is_null) else extentsWF rest

/-- A well-formed node holding a single three-block hole extent. -/
def c8_node : Node :=
  { size := 1536, link_count := 1, filetype := FileType.File
    extents := ⟨0, 3⟩ :: List.replicate 14 ⟨0, 0⟩ }

/-- Counterexample to C8 as stated: on a well-formed node whose only extent
is a hole of three blocks, `block_count` returns 3, not the mapped-only sum
0 — the source filters on `is_null` only, so holes do contribute. -/
theorem claim_C8_counterexample :
    extentsWF c8_node.extents = true ∧
    Node.block_count c8_node = 3 ∧ mappedBlockSum c8_node = 0 ∧
    Node.block_count c8_node ≠ mappedBlockSum c8_node := by
  refine ⟨rfl, rfl, rfl, ?_⟩
  decide

/-- Splitting the non-null extent sum into its mapped and hole parts. -/
theorem extent_sum_split (l : List Extent) :
    ((l.filter (fun e => !e.is_null)).map (fun e => e.stop - e.start)).sum =
    ((l.filter (fun e => !e.is_null && !e.is_hole)).map
      (fun e => e.stop - e.start)).sum +
    ((l.filter (fun e => e.is_hole)).map (fun e => e.stop - e.start)).sum := by
  induction l with
  | nil => rfl
  | cons e l ih =>
    have hnh : e.is_hole = true → e.is_null = false := by
      simp only [Extent.is_hole, Extent.is_null, Bool.and_eq_true, beq_iff_eq,
        decide_eq_true_eq, Bool.and_eq_false_iff, beq_eq_false_iff_ne]
      intro hh
      right
      omega
    by_cases hn : e.is_null = true
    · have hh : e.is_hole = false := by
        cases hht : e.is_hole
        · rfl
        · rw [hnh hht] at hn; cases hn
      simp [List.filter_cons, hn, hh, ih]
    · have hn' : e.is_null = false := by
        cases hnv : e.is_null
        · rfl
        · exact absurd hnv hn
      by_cases hh : e.is_hole = true
      · simp [List.filter_cons, hn', hh, ih]
        omega
      · have hh' : e.is_hole = false := by
          cases hhv : e.is_hole
          · rfl
          · exact absurd hhv hh
        simp [List.filter_cons, hn', hh', ih]
        omega

/-- C8 (amended).  `block_count` sums `stop - start` over all non-null
extents, so it equals the mapped-extent sum plus the hole lengths: hole
extents contribute their length (`end - 0`), they are not excluded. -/
theorem claim_C8_block_count_includes_holes (n : Node) :
    Node.block_count n = mappedBlockSum n + holeBlockSum n :=
  extent_sum_split n.extents

/-- C10.  `AllocMap::free` and `AllocMap::allocate_span` assert
`span.0 < span.1`, so an empty or inverted span panics (modelled `none`);
under `span.0 < span.1` both are total (`isSome`) and return
`IndexOutOfBounds` — with the map unchanged — exactly when `span.1` exceeds
the map length. -/
theorem claim_C10_span_asserts (m : AllocMap) (a b : Nat) :
    (b ≤ a → AllocMap.free m (a, b) = none ∧ AllocMap.allocate_span m (a, b) = none) ∧
    (a < b →
      (AllocMap.free m (a, b)).isSome = true ∧
      (AllocMap.allocate_span m (a, b)).isSome = true ∧
      ((AllocMap.free m (a, b) =
          some (Except.error AllocError.IndexOutOfBounds, m)) ↔ m.length < b) ∧
      ((AllocMap.allocate_span m (a, b) =
          some (Except.error AllocError.IndexOutOfBounds, m)) ↔ m.length < b)) := by
  constructor
  · intro h
    constructor
    · simp only [AllocMap.free]
      rw [if_pos h]
    · simp only [AllocMap.allocate_span]
      rw [if_pos h]
  · intro h
    have h' : ¬ b ≤ a := by omega
    by_cases hlb : m.length < b
    · constructor
      · simp only [AllocMap.free]
        rw [if_neg h', if_pos hlb]
        rfl
      constructor
      · simp only [AllocMap.allocate_span]
        rw [if_neg h', if_pos hlb]
        rfl
      constructor
      · simp only [AllocMap.free]
        rw [if_neg h', if_pos hlb]
        simp [hlb]
      · simp only [AllocMap.allocate_span]
        rw [if_neg h', if_pos hlb]
        simp [hlb]
    · constructor
      · simp only [AllocMap.free]
        rw [if_neg h', if_neg hlb]
        rfl
      constructor
      · simp only [AllocMap.allocate_span]
        rw [if_neg h', if_neg hlb]
        split
        · rfl
        · rfl
      constructor
      · simp only [AllocMap.free]
        rw [if_neg h', if_neg hlb]
        simp [hlb]
      · simp only [AllocMap.allocate_span]
        rw [if_neg h', if_neg hlb]
        constructor
        · intro hcontr
          split at hcontr <;> simp_all
        · intro hcontr
          exact absurd hcontr hlb

/-- Witness for C10 at concrete inputs: the inverted span `(1, 1)` panics on
a one-flag map, and the span `(0, 2)` is out of bounds there. -/
theorem claim_C10_witness :
    AllocMap.free [AllocFlag.Free] (1, 1) = none ∧
    AllocMap.allocate_span [AllocFlag.Free] (1, 1) = none ∧
    AllocMap.free [AllocFlag.Free] (0, 2) =
      some (Except.error AllocError.IndexOutOfBounds, [AllocFlag.Free]) :=
  ⟨((claim_C10_span_asserts [AllocFlag.Free] 1 1).1 (by decide)).1,
   ((claim_C10_span_asserts [AllocFlag.Free] 1 1).1 (by decide)).2,
   (((claim_C10_span_asserts [AllocFlag.Free] 0 2).2 (by decide)).2.2.1).mpr (by decide)⟩

/-- Every flag of the half-open span `[a, b)` is `Free` (positions beyond
the map count as `Used`, so `allFreeP` also forces `b ≤ m.length` whenever
`a < b`). -/
def allFreeP (m : AllocMap) (a b : Nat) : Prop :=
  ∀ j, j < b → a ≤ j → m.getD j AllocFlag.Used = AllocFlag.Free

/-- The flag at `i` when the drop at `i` is known. -/
theorem getD_of_drop_cons {m : AllocMap} {i : Nat} {f : AllocFlag}
    {t : List AllocFlag} (h : m.drop i = f :: t) (d : AllocFlag) :
    m.getD i d = f := by
  have h0 : m[i]? = some f := by
    have := List.getElem?_drop m i 0
    rw [h] at this
    simpa using this.symm
  simp [List.getD_eq_getElem?_getD, h0]

/-- The tail of the drop. -/
theorem drop_succ_of_drop_cons {m : AllocMap} {i : Nat} {f : AllocFlag}
    {t : List AllocFlag} (h : m.drop i = f :: t) : m.drop (i + 1) = t := by
  have : (m.drop i).drop 1 = m.drop (i + 1) := by
    rw [List.drop_drop]
  rw [← this, h]
  rfl

/-- The drop at `i` is nonempty exactly below the length. -/
theorem lt_length_of_drop_cons {m : AllocMap} {i : Nat} {f : AllocFlag}
    {t : List AllocFlag} (h : m.drop i = f :: t) : i < m.length := by
  have := congrArg List.length h
  simp [List.length_drop] at this
  omega

/-- Length is preserved by `fillRange`. -/
theorem length_fillRange (v : AllocFlag) :
    ∀ (m : AllocMap) (a b : Nat), (fillRange v m a b).length = m.length := by
  intro m
  induction m with
  | nil => intro a b; rfl
  | cons f rest ih =>
    intro a b
    simp [fillRange, ih]

/-- Pointwise description of `fillRange`. -/
theorem getD_fillRange (v : AllocFlag) :
    ∀ (m : AllocMap) (a b j : Nat) (d : AllocFlag),
      (fillRange v m a b).getD j d =
        if a ≤ j ∧ j < b ∧ j < m.length then v else m.getD j d := by
  intro m
  induction m with
  | nil =>
    intro a b j d
    simp [fillRange]
  | cons f rest ih =>
    intro a b j d
    cases j with
    | zero =>
      simp only [fillRange, List.getD_cons_zero, List.length_cons]
      by_cases h : a = 0 ∧ 0 < b
      · rw [if_pos h, if_pos (by omega)]
      · rw [if_neg h, if_neg (by omega)]
    | succ k =>
      simp only [fillRange, List.getD_cons_succ, List.length_cons]
      rw [ih (a - 1) (b - 1) k d]
      by_cases h : a - 1 ≤ k ∧ k < b - 1 ∧ k < rest.length
      · rw [if_pos h, if_pos (by omega)]
      · rw [if_neg h, if_neg (by omega)]

/-- Out-of-range flags read as the default. -/
theorem getD_default_of_le {m : AllocMap} {j : Nat} (h : m.length ≤ j)
    (d : AllocFlag) : m.getD j d = d :=
  List.getD_eq_default m d h

/-- Correctness of the `find_free` loop.  Starting from index `i` with the
candidate run beginning at `start`, if the flags of `[start, i)` are free,
fewer than `count` of them have been seen, and no full free window begins
before `start`, then the loop returns the leftmost free window of exactly
`count` flags (or `none` when no such window exists at all). -/
theorem findFreeGo_spec (count : Nat) (hc : 0 < count) (m : AllocMap) :
    ∀ (rest : List AllocFlag) (i start : Nat),
      rest = m.drop i → start ≤ i → i - start < count →
      (∀ j, start ≤ j → j < i → m.getD j AllocFlag.Used = AllocFlag.Free) →
      (∀ s, s < start → ¬ allFreeP m s (s + count)) →
      (match AllocMap.findFreeGo count rest i start with
       | some se => se.2 = se.1 + count ∧ start ≤ se.1 ∧ allFreeP m se.1 se.2 ∧
           ∀ s, s < se.1 → ¬ allFreeP m s (s + count)
       | none => ∀ s, ¬ allFreeP m s (s + count)) := by
  intro rest
  induction rest with
  | nil =>
    intro i start hdrop hsi hic _hseg hleft
    simp only [AllocMap.findFreeGo]
    have hlen : m.length ≤ i := by
      have := congrArg List.length hdrop
      simp [List.length_drop] at this
      omega
    intro s hall
    by_cases hs : s < start
    · exact hleft s hs hall
    · have hj : max i s < s + count := by omega
      have := hall (max i s) hj (by omega)
      rw [getD_default_of_le (by omega) AllocFlag.Used] at this
      cases this
  | cons f t ih =>
    intro i start hdrop hsi hic hseg hleft
    have hf : m.getD i AllocFlag.Used = f := getD_of_drop_cons hdrop.symm _
    have hdrop' : t = m.drop (i + 1) := (drop_succ_of_drop_cons hdrop.symm).symm
    have hi : i < m.length := lt_length_of_drop_cons hdrop.symm
    simp only [AllocMap.findFreeGo]
    by_cases hfu : f = AllocFlag.Used
    · rw [if_pos hfu]
      have hleft' : ∀ s, s < i + 1 → ¬ allFreeP m s (s + count) := by
        intro s hs hall
        by_cases hss : s < start
        · exact hleft s hss hall
        · have := hall i (by omega) (by omega)
          rw [hf, hfu] at this
          cases this
      have := ih (i + 1) (i + 1) hdrop' le_rfl (by omega) (by omega) hleft'
      revert this
      cases AllocMap.findFreeGo count t (i + 1) (i + 1) with
      | none => exact fun h => h
      | some se => exact fun h => ⟨h.1, by omega, h.2.2⟩
    · rw [if_neg hfu]
      have hff : f = AllocFlag.Free := by
        cases f
        · rfl
        · exact absurd rfl hfu
      by_cases heq : i + 1 - start = count
      · rw [if_pos heq]
        refine ⟨by omega, le_rfl, ?_, hleft⟩
        intro j hj1 hj2
        by_cases hji : j < i
        · exact hseg j hj2 hji
        · have : j = i := by omega
          rw [this, hf, hff]
      · rw [if_neg heq]
        have hseg' : ∀ j, start ≤ j → j < i + 1 →
            m.getD j AllocFlag.Used = AllocFlag.Free := by
          intro j hj1 hj2
          by_cases hji : j < i
          · exact hseg j hj1 hji
          · have : j = i := by omega
            rw [this, hf, hff]
        have := ih (i + 1) start hdrop' (by omega) (by omega) hseg' hleft
        revert this
        cases AllocMap.findFreeGo count t (i + 1) start with
        | none => exact fun h => h
        | some se => exact fun h => ⟨h.1, by omega, h.2.2⟩

/-- `find_free` characterized on the whole map. -/
theorem find_free_spec (m : AllocMap) (count : Nat) (hc : 0 < count) :
    (match AllocMap.find_free m count with
     | some se => se.2 = se.1 + count ∧ allFreeP m se.1 se.2 ∧
         ∀ s, s < se.1 → ¬ allFreeP m s (s + count)
     | none => ∀ s, ¬ allFreeP m s (s + count)) := by
  have h0 : AllocMap.find_free m count = AllocMap.findFreeGo count m 0 0 := by
    simp [AllocMap.find_free, Nat.pos_iff_ne_zero.mp hc]
  have := findFreeGo_spec count hc m m 0 0 (List.drop_zero m).symm le_rfl
    (by omega) (by omega) (by omega)
  rw [h0]
  revert this
  cases AllocMap.findFreeGo count m 0 0 with
  | none => exact fun h => h
  | some se => exact fun h => ⟨h.1, h.2.2⟩

/-- A free window of positive width ends within the map. -/
theorem allFreeP_le_length {m : AllocMap} {s count : Nat} (hc : 0 < count)
    (h : allFreeP m s (s + count)) : s + count ≤ m.length := by
  by_contra hcon
  have := h (s + count - 1) (by omega) (by omega)
  rw [getD_default_of_le (by omega) AllocFlag.Used] at this
  cases this

/-- C7.  First-fit allocation: a successful `allocate(count)` returns the
leftmost half-open span of exactly `count` free flags (ties to the earliest
start), flips exactly those flags to `Used`, and `allocate` fails with
`OutOfSpace`, leaving the map unchanged, precisely when `count = 0` or no
window of `count` consecutive free flags exists. -/
theorem claim_C7_first_fit (m : AllocMap) (count : Nat) :
    (∀ s e m', AllocMap.allocate m count = (Except.ok (s, e), m') →
      e = s + count ∧ 0 < count ∧ allFreeP m s (s + count) ∧
      (∀ s', s' < s → ¬ allFreeP m s' (s' + count)) ∧
      m'.length = m.length ∧
      (∀ j, j < m.length → m'.getD j AllocFlag.Free =
        if s ≤ j ∧ j < e then AllocFlag.Used else m.getD j AllocFlag.Free)) ∧
    (AllocMap.allocate m count = (Except.error AllocError.OutOfSpace, m) ↔
      (count = 0 ∨ ∀ s, ¬ allFreeP m s (s + count))) := by
  by_cases hc : count = 0
  · constructor
    · intro s e m' hok
      rw [hc] at hok
      simp [AllocMap.allocate, AllocMap.find_free] at hok
    · constructor
      · intro _
        exact Or.inl hc
      · intro _
        rw [hc]
        simp [AllocMap.allocate, AllocMap.find_free]
  · have hc' : 0 < count := Nat.pos_of_ne_zero hc
    have hspec := find_free_spec m count hc'
    constructor
    · intro s e m' hok
      revert hspec hok
      cases hff : AllocMap.find_free m count with
      | none =>
        intro _ hok
        simp [AllocMap.allocate, hff] at hok
      | some se =>
        intro hspec hok
        obtain ⟨s0, e0⟩ := se
        simp only [AllocMap.allocate, hff] at hok
        have hok1 := congrArg Prod.fst hok
        have hok2 := congrArg Prod.snd hok
        simp only at hok1 hok2
        rw [Except.ok.injEq, Prod.mk.injEq] at hok1
        obtain ⟨hs0, he0⟩ := hok1
        subst hs0
        subst he0
        refine ⟨hspec.1, hc', hspec.1 ▸ hspec.2.1, hspec.2.2, ?_, ?_⟩
        · rw [← hok2, length_fillRange]
        · intro j hj
          rw [← hok2, getD_fillRange]
          have heqv : (s0 ≤ j ∧ j < e0 ∧ j < m.length) ↔ (s0 ≤ j ∧ j < e0) := by
            constructor
            · exact fun h => ⟨h.1, h.2.1⟩
            · exact fun h => ⟨h.1, h.2, hj⟩
          rw [if_congr heqv rfl rfl]
    · revert hspec
      cases hff : AllocMap.find_free m count with
      | none =>
        intro hspec
        simp only [AllocMap.allocate, hff]
        exact ⟨fun _ => Or.inr hspec, fun _ => trivial⟩
      | some se =>
        intro hspec
        simp only [AllocMap.allocate, hff]
        constructor
        · intro hcon
          exact absurd (congrArg Prod.fst hcon) (by simp)
        · intro hcon
          rcases hcon with hcon | hcon
          · exact absurd hcon hc
          · exact absurd (hspec.1 ▸ hspec.2.1) (hcon se.1)

/-- Witness for C7 at a concrete map: on `[Used, Free, Free]` with
`count = 2` the span `(1, 3)` is returned, its window is free, no window
starts earlier, and the flags become all `Used`. -/
theorem claim_C7_witness :
    allFreeP [AllocFlag.Used, AllocFlag.Free, AllocFlag.Free] 1 3 ∧
    (¬ allFreeP [AllocFlag.Used, AllocFlag.Free, AllocFlag.Free] 0 2) ∧
    ([AllocFlag.Used, AllocFlag.Used, AllocFlag.Used] : AllocMap).getD 1
      AllocFlag.Free = AllocFlag.Used := by
  have h := (claim_C7_first_fit [AllocFlag.Used, AllocFlag.Free, AllocFlag.Free] 2).1
    1 3 [AllocFlag.Used, AllocFlag.Used, AllocFlag.Used] rfl
  refine ⟨?_, h.2.2.2.1 0 (by omega), ?_⟩
  · have h1 := h.2.2.1
    simpa using h1
  · have h2 := h.2.2.2.2.2 1 (by simp)
    simp only [show ((1:Nat) ≤ 1 ∧ (1:Nat) < 3) from ⟨le_rfl, by omega⟩, if_pos] at h2
    exact h2

/-- Block well-formedness of a state: every storage block and every staged
block holds exactly `BLOCK_SIZE` bytes (the Rust `Block` type is a fixed
`[u8; BLOCK_SIZE]`, so this is a type invariant there). -/
def BlocksWF (st : State) : Prop :=
  (∀ i, (st.storage i).length = BLOCK_SIZE) ∧
  (∀ i b, st.changes i = some b → b.length = BLOCK_SIZE)

/-- Blocks read through the staging layer have `BLOCK_SIZE` bytes. -/
theorem read_block_length {st : State} (hwf : BlocksWF st) (i : Nat) :
    (read_block st i).length = BLOCK_SIZE := by
  unfold read_block
  cases h : st.changes i with
  | none => exact hwf.1 i
  | some b => exact hwf.2 i b h

/-- The byte a read of position `pos` must deliver: the corresponding byte
of the resolved physical block when the logical block `pos / BLOCK_SIZE` is
mapped, and 0 when it is a hole or beyond the extents. -/
def byteAt (st : State) (node : Node) (pos : Nat) : Nat :=
  match node.get_physical_block (pos / BLOCK_SIZE) with
  | some block_index => (read_block st block_index).getD (pos % BLOCK_SIZE) 0
  | none => 0

/-- Reading an index of a spliced list `take k ++ mid ++ drop (k + c)`. -/
theorem getD_splice (l mid : List Nat) (k c j d : Nat)
    (hk : k ≤ l.length) (hmid : mid.length = c) :
    (l.take k ++ mid ++ l.drop (k + c)).getD j d =
      if j < k then l.getD j d
      else if j < k + c then mid.getD (j - k) d
      else l.getD j d := by
  rw [List.append_assoc]
  simp only [List.getD_eq_getElem?_getD, List.getElem?_append, List.length_take,
    List.getElem?_take, List.getElem?_drop, hmid, Nat.min_eq_left hk]
  by_cases h1 : j < k
  · rw [if_pos h1, if_pos h1, if_pos h1]
  · rw [if_neg h1, if_neg h1]
    by_cases h2 : j < k + c
    · rw [if_pos (show j - k < c by omega), if_pos h2]
    · rw [if_neg (show ¬ j - k < c by omega), if_neg h2]
      have : k + c + (j - k - c) = j := by omega
      rw [this]

/-- A chunk no longer than the rest of its block has exactly the requested
length. -/
theorem readChunk_length {st : State} (hwf : BlocksWF st) (node : Node)
    (curr_pos chunk_size : Nat)
    (hcs : chunk_size ≤ BLOCK_SIZE - curr_pos % BLOCK_SIZE) :
    (readChunk st node curr_pos chunk_size).length = chunk_size := by
  unfold readChunk
  cases node.get_physical_block_from_offset curr_pos with
  | none => simp
  | some block_index =>
    simp only [List.length_take, List.length_drop, read_block_length hwf]
    have : curr_pos % BLOCK_SIZE < BLOCK_SIZE := Nat.mod_lt _ (by decide)
    omega

/-- Each byte of a chunk is the byte `byteAt` prescribes: within one block,
position `curr_pos + j` resolves through the same logical block as
`curr_pos`, at in-block offset `curr_pos % BLOCK_SIZE + j`. -/
theorem readChunk_getD {st : State} (hwf : BlocksWF st) (node : Node)
    (curr_pos chunk_size j : Nat)
    (hcs : chunk_size ≤ BLOCK_SIZE - curr_pos % BLOCK_SIZE)
    (hj : j < chunk_size) :
    (readChunk st node curr_pos chunk_size).getD j 0 =
      byteAt st node (curr_pos + j) := by
  have hB : BLOCK_SIZE = 512 := rfl
  have hdiv : (curr_pos + j) / BLOCK_SIZE = curr_pos / BLOCK_SIZE := by
    rw [hB] at hcs ⊢
    omega
  have hmod : (curr_pos + j) % BLOCK_SIZE = curr_pos % BLOCK_SIZE + j := by
    rw [hB] at hcs ⊢
    omega
  unfold readChunk byteAt Node.get_physical_block_from_offset
    Node.get_logical_block_from_offset
  rw [hdiv, hmod]
  cases node.get_physical_block (curr_pos / BLOCK_SIZE) with
  | none =>
    simp only [List.getD_eq_getElem?_getD, List.getElem?_replicate_of_lt hj]
    rfl
  | some block_index =>
    have hlen : (read_block st block_index).length = BLOCK_SIZE :=
      read_block_length hwf block_index
    simp only [List.getD_eq_getElem?_getD, List.getElem?_take, hj, if_pos,
      List.getElem?_drop]

/-- Invariant proof for the read loop: with enough fuel it reads exactly
`bytes_to_read` bytes, keeps the buffer length, writes `byteAt` into the
positions `[bytes_read, bytes_to_read)` and leaves every other position of
the buffer unchanged. -/
theorem readLoop_spec (st : State) (node : Node) (offset : Nat)
    (hwf : BlocksWF st) :
    ∀ (fuel btr br : Nat) (buf : List Nat),
      br ≤ btr → btr ≤ buf.length → btr - br ≤ fuel →
      (readLoop st node offset fuel btr br buf).2 = btr ∧
      (readLoop st node offset fuel btr br buf).1.length = buf.length ∧
      (∀ i, i < br →
        (readLoop st node offset fuel btr br buf).1.getD i 0 = buf.getD i 0) ∧
      (∀ i, br ≤ i → i < btr →
        (readLoop st node offset fuel btr br buf).1.getD i 0 =
          byteAt st node (offset + i)) ∧
      (∀ i, btr ≤ i →
        (readLoop st node offset fuel btr br buf).1.getD i 0 = buf.getD i 0) := by
  intro fuel
  induction fuel with
  | zero =>
    intro btr br buf hbr hbuf hfuel
    have hbe : br = btr := by omega
    have hred : readLoop st node offset 0 btr br buf = (buf, br) := rfl
    rw [hred]
    exact ⟨hbe, rfl, fun _ _ => rfl, fun i h1 h2 => by omega, fun _ _ => rfl⟩
  | succ fuel ih =>
    intro btr br buf hbr hbuf hfuel
    by_cases hbe : br = btr
    · have hred : readLoop st node offset (fuel + 1) btr br buf = (buf, br) := by
        simp only [readLoop, if_pos hbe]
      rw [hred]
      exact ⟨hbe, rfl, fun _ _ => rfl, fun i h1 h2 => by omega, fun _ _ => rfl⟩
    · simp only [readLoop, if_neg hbe]
      have hoib : (offset + br) % BLOCK_SIZE < BLOCK_SIZE := Nat.mod_lt _ (by decide)
      set cs := min (BLOCK_SIZE - (offset + br) % BLOCK_SIZE) (btr - br) with hcs
      have hcs1 : 1 ≤ cs := by omega
      have hcs2 : br + cs ≤ btr := by omega
      have hcsb : cs ≤ BLOCK_SIZE - (offset + br) % BLOCK_SIZE := by omega
      set chunk := readChunk st node (offset + br) cs with hchunkdef
      have hchunklen : chunk.length = cs := readChunk_length hwf node _ cs hcsb
      set buf' := buf.take br ++ chunk ++ buf.drop (br + cs) with hbufdef
      have hbuflen : buf'.length = buf.length := by
        rw [hbufdef]
        simp only [List.length_append, List.length_take, List.length_drop, hchunklen]
        omega
      have hsplice : ∀ j d, buf'.getD j d =
          if j < br then buf.getD j d
          else if j < br + cs then chunk.getD (j - br) d
          else buf.getD j d := by
        intro j d
        rw [hbufdef]
        exact getD_splice buf chunk br cs j d (by omega) hchunklen
      obtain ⟨ih1, ih2, ih3, ih4, ih5⟩ :=
        ih btr (br + cs) buf' hcs2 (by omega) (by omega)
      refine ⟨ih1, by rw [ih2, hbuflen], ?_, ?_, ?_⟩
      · intro i hi
        rw [ih3 i (by omega), hsplice, if_pos (by omega)]
      · intro i hi1 hi2
        by_cases hmid : i < br + cs
        · rw [ih3 i hmid, hsplice, if_neg (by omega), if_pos hmid]
          rw [hchunkdef]
          have := readChunk_getD hwf node (offset + br) cs (i - br) hcsb (by omega)
          rw [this]
          have harg : offset + br + (i - br) = offset + i := by omega
          rw [harg]
        · exact ih4 i (by omega) hi2
      · intro i hi
        rw [ih5 i hi, hsplice, if_neg (by omega), if_neg (by omega)]

/-- C5.  The `read_file_at` contract: it returns 0 bytes when
`offset ≥ size`; otherwise it reads exactly
`min buf.len() (size - offset)` bytes, filling exactly that prefix of the
buffer with `byteAt` (the resolved physical block's byte for a mapped
logical block; zero for a hole or for a block beyond the extents but within
`size`) and leaving the rest of the buffer untouched. -/
theorem claim_C5_read_file_at_contract (st : State) (node_index offset : Nat)
    (buf : List Nat) (hwf : BlocksWF st) :
    ((read_node st node_index).size ≤ offset →
      read_file_at st node_index offset buf = (buf, 0)) ∧
    (offset < (read_node st node_index).size →
      (read_file_at st node_index offset buf).2 =
        min buf.length ((read_node st node_index).size - offset) ∧
      (read_file_at st node_index offset buf).1.length = buf.length ∧
      (∀ i, i < (read_file_at st node_index offset buf).2 →
        (read_file_at st node_index offset buf).1.getD i 0 =
          byteAt st (read_node st node_index) (offset + i)) ∧
      (∀ i, (read_file_at st node_index offset buf).2 ≤ i →
        (read_file_at st node_index offset buf).1.getD i 0 = buf.getD i 0)) := by
  constructor
  · intro h
    simp only [read_file_at]
    rw [if_pos h]
  · intro h
    have h' : ¬ (read_node st node_index).size ≤ offset := by omega
    simp only [read_file_at]
    rw [if_neg h']
    set btr := min ((read_node st node_index).size - offset) buf.length with hbtr
    obtain ⟨h1, h2, _h3, h4, h5⟩ := readLoop_spec st (read_node st node_index)
      offset hwf btr btr 0 buf (by omega) (by omega) (by omega)
    refine ⟨?_, h2, ?_, ?_⟩
    · rw [h1, hbtr, Nat.min_comm]
    · intro i hi
      rw [h1] at hi
      exact h4 i (by omega) hi
    · intro i hi
      rw [h1] at hi
      exact h5 i hi

/-- The base state `st0` is block well-formed. -/
theorem blocksWF_st0 : BlocksWF st0 := by
  constructor
  · intro i
    simp only [st0]
    by_cases h : i = 5
    · rw [if_pos h]
      rfl
    · rw [if_neg h]
      rfl
  · intro i b h
    simp only [st0] at h
    cases h

/-- Witness for C5 at a concrete input: reading the 160-byte root directory
of `st0` into a 200-byte buffer returns `min 200 160` bytes and byte 0 is
the prescribed one. -/
theorem claim_C5_witness :
    (0:Nat) < (read_node st0 1).size ∧
    (read_file_at st0 1 0 (List.replicate 200 0)).2 =
      min (List.replicate 200 (0:Nat)).length ((read_node st0 1).size - 0) ∧
    (read_file_at st0 1 0 (List.replicate 200 0)).1.getD 0 0 =
      byteAt st0 (read_node st0 1) (0 + 0) := by
  have h := (claim_C5_read_file_at_contract st0 1 0 (List.replicate 200 0)
    blocksWF_st0).2 (by decide)
  exact ⟨by decide, h.1, h.2.2.1 0 (by decide)⟩
